import Mathlib

/-!
# PowerDNS input plugin: response parsing and the gather pass

A shallow embedding of `plugins/inputs/powerdns/powerdns.go`.

Modelling conventions.

* Go strings are sequences of characters (`Str`).  The separators `,` and `=`,
  the sign characters and the decimal digits are all ASCII, so splitting and
  number parsing act the same on characters as on the UTF-8 bytes.
* `map[string]interface{}` holding `int64` values is an association list with
  unique keys (`FieldSet`); assigning to a key overwrites its entry in place,
  or appends a new entry.
* A Go runtime panic (index out of range) is the outcome `Outcome.panic`.
* A function returning `(value, error)` returns a pair whose second component
  is `Option GoError` (`none` is the `nil` error).
* `uint64` arithmetic is on `Nat` with explicit `% 2 ^ 64`.
* The network is a parameter (`Net`): it decides what each dial, write, flush
  and read does.  The accumulator is the list of `AddFields` calls.
-/

namespace Telegraf

/-- Go string: a sequence of characters. -/
abbrev Str := List Char

/-- Error values that the plugin can see. -/
inductive GoError where
  /-- The `io.EOF` sentinel. -/
  | EOF
  /-- The `strconv.ErrSyntax` failure of `ParseInt`. -/
  | ErrSyntax
  /-- The `strconv.ErrRange` failure of `ParseInt`. -/
  | ErrRange
  /-- Any other error of the network layer (dial failure, timeout, reset). -/
  | netErr (code : Nat)
  deriving DecidableEq

/-- Result of running Go code that may panic. -/
inductive Outcome (α : Type) where
  /-- Normal return with the returned values. -/
  | ret (a : α)
  /-- Runtime panic, unwinding through every caller. -/
  | panic
  deriving DecidableEq

/-! ## Library functions used by the plugin -/

/-- Go `strings.Split(s, sep)` for a one-character separator: the pieces of `s`
between the occurrences of `sep`; always at least one piece (the empty case of
the inner `match` does not arise). -/
def Split : Str → Char → List Str
  | [], _ => [[]]
  | c :: cs, sep =>
    if c = sep then [] :: Split cs sep
    else
      match Split cs sep with
      | [] => [[c]]
      | piece :: pieces => (c :: piece) :: pieces

/-- Largest `uint64`. -/
def maxUint64 : Nat := 2 ^ 64 - 1

/-- Decimal digit test `'0' <= c && c <= '9'`. -/
def isDigit (c : Char) : Bool := decide (48 ≤ c.toNat ∧ c.toNat ≤ 57)

/-- Loop of Go `strconv.ParseUint(s, 10, 64)` over the characters of `s`, with
the accumulator `n`.  A character that is not a decimal digit is a syntax
error (letters give a digit value of at least the base); `cutoff` is
`maxUint64/10 + 1`. -/
def parseUintLoop (n : Nat) : Str → Nat × Option GoError
  | [] => (n, none)
  | c :: cs =>
    if isDigit c then
      let d := c.toNat - 48
      if n ≥ maxUint64 / 10 + 1 then
        (maxUint64, some GoError.ErrRange)
      else
        let n10 := (n * 10) % 2 ^ 64
        let n1 := (n10 + d) % 2 ^ 64
        if n1 < n10 ∨ n1 > maxUint64 then
          (maxUint64, some GoError.ErrRange)
        else
          parseUintLoop n1 cs
    else
      (0, some GoError.ErrSyntax)

/-- Go `strconv.ParseUint(s, 10, 64)`. -/
def ParseUint (s : Str) : Nat × Option GoError :=
  if s = [] then (0, some GoError.ErrSyntax) else parseUintLoop 0 s

/-- The part of Go `strconv.ParseInt(s, 10, 64)` after the call of `ParseUint`:
an error other than a range error is returned as it is; otherwise the unsigned
value is checked against `cutoff = 1 << 63` and given its sign. -/
def signedCheck (neg : Bool) (r : Nat × Option GoError) : Int × Option GoError :=
  if r.2 ≠ none ∧ r.2 ≠ some GoError.ErrRange then (0, r.2)
  else if ¬ neg ∧ r.1 ≥ 2 ^ 63 then ((2 : Int) ^ 63 - 1, some GoError.ErrRange)
  else if neg ∧ r.1 > 2 ^ 63 then (-(2 : Int) ^ 63, some GoError.ErrRange)
  else (if neg then -(r.1 : Int) else (r.1 : Int), none)

/-- Go `strconv.ParseInt(s, 10, 64)`: the empty text is a syntax error; a
leading `+` or `-` is taken off; the rest goes through `ParseUint` and the
signed range check. -/
def ParseInt (s : Str) : Int × Option GoError :=
  match s with
  | [] => (0, some GoError.ErrSyntax)
  | c :: cs =>
    let neg := decide (c = '-')
    let body := if c = '+' ∨ c = '-' then cs else c :: cs
    signedCheck neg (ParseUint body)

/-! ## The field map and parseResponse -/

/-- The decoded fields of one response: metric name to integer value. -/
abbrev FieldSet := List (Str × Int)

/-- Map assignment `values[k] = v`. -/
def FieldSet.set : FieldSet → Str → Int → FieldSet
  | [], k, v => [(k, v)]
  | (k', v') :: rest, k, v =>
    if k' = k then (k, v) :: rest else (k', v') :: FieldSet.set rest k v

/-- Map lookup `values[k]`. -/
def FieldSet.get : FieldSet → Str → Option Int
  | [], _ => none
  | (k', v') :: rest, k => if k' = k then some v' else FieldSet.get rest k

/-- Body of the `for _, metric := range s[:len(s)-1]` loop of `parseResponse`,
with the map built so far. -/
def parseLoop (values : FieldSet) : List Str → Outcome (FieldSet × Option GoError)
  | [] => Outcome.ret (values, none)
  | metric :: rest =>
    let m := Split metric '='
    match m.get? 1 with
    | none => Outcome.panic
    | some m1 =>
      match ParseInt m1 with
      | (_, some err) => Outcome.ret (values, some err)
      | (i, none) => parseLoop (values.set (m.headD []) i) rest

/-- The function `parseResponse(metrics string) (map[string]interface{}, error)`. -/
def parseResponse (metrics : Str) : Outcome (FieldSet × Option GoError) :=
  let s := Split metrics ','
  parseLoop [] (s.take (s.length - 1))

/-! ## Base-10 literals and response texts (specification side) -/

/-- Value of a digit string read in base 10, continuing from `n`. -/
def digitsFrom (n : Nat) (ds : Str) : Nat :=
  ds.foldl (fun acc c => 10 * acc + (c.toNat - 48)) n

/-- One or more decimal digits. -/
def isDigits (ds : Str) : Bool := ds ≠ [] && ds.all isDigit

/-- The integer written by a base-10 literal: an optional sign `+` or `-`
followed by one or more decimal digits; `none` for any other text. -/
def literalValue (s : Str) : Option Int :=
  match s with
  | [] => none
  | c :: cs =>
    if c = '-' then (if isDigits cs then some (-(digitsFrom 0 cs : Int)) else none)
    else if c = '+' then (if isDigits cs then some (digitsFrom 0 cs : Int) else none)
    else if isDigits (c :: cs) then some (digitsFrom 0 (c :: cs) : Int) else none

/-- The signed 64-bit range. -/
def inInt64 (v : Int) : Prop := -(2 : Int) ^ 63 ≤ v ∧ v ≤ (2 : Int) ^ 63 - 1

instance (v : Int) : Decidable (inInt64 v) := by unfold inInt64; infer_instance

/-- One `key=value` pair of a response: the key, the text of the value, and the
integer that the text writes. -/
structure Entry where
  /-- The metric name. -/
  key : Str
  /-- The value as written in the response. -/
  text : Str
  /-- The value. -/
  value : Int

/-- The segment `k=w`. -/
def segment (k w : Str) : Str := k ++ '=' :: w

/-- The response text `k1=w1,k2=w2,...,kn=wn,`. -/
def render : List Entry → Str
  | [] => []
  | e :: es => segment e.key e.text ++ ',' :: render es

/-- A pair of the response grammar: the key has neither `,` nor `=`, and the
text is a base-10 writing of the value, which fits in 64 signed bits. -/
def Entry.wellFormed (e : Entry) : Prop :=
  ',' ∉ e.key ∧ '=' ∉ e.key ∧ literalValue e.text = some e.value ∧ inInt64 e.value

/-- A segment `key=text` that the loop of `parseResponse` accepts with `value`:
the key has neither `,` nor `=`, the text has no `,`, and the text up to its
first `=` (all of it when it has none) is a base-10 writing of the value, which
fits in 64 signed bits. -/
def Entry.accepted (e : Entry) : Prop :=
  ',' ∉ e.key ∧ '=' ∉ e.key ∧ ',' ∉ e.text
    ∧ literalValue (e.text.takeWhile (fun c => decide (c ≠ '='))) = some e.value
    ∧ inInt64 e.value

/-- The mapping `ki ↦ vi` of a list of pairs. -/
def fieldsOf (es : List Entry) : FieldSet := es.map (fun e => (e.key, e.value))

/-- The map after assigning the pairs in order, starting from `values`. -/
def assignAll (values : FieldSet) (es : List Entry) : FieldSet :=
  es.foldl (fun m e => m.set e.key e.value) values

/-! ## The gather pass -/

/-- One call `acc.AddFields(measurement, fields, tags)` on the accumulator. -/
structure Record where
  /-- The measurement name. -/
  measurement : Str
  /-- The fields. -/
  fields : FieldSet
  /-- The tags. -/
  tags : List (Str × Str)
  deriving DecidableEq

/-- Behaviour of an established connection.  The absolute deadline set on the
connection bounds the exchange, so the reads are finitely many reads that
return data, followed by one that returns an error (`io.EOF` when the peer
closes the stream). -/
structure Conn where
  /-- The error of `fmt.Fprint(conn, "show * \n")`, if any. -/
  writeErr : Option GoError
  /-- The error of `rw.Flush()`, if any. -/
  flushErr : Option GoError
  /-- The data of the successive reads that return no error. -/
  chunks : List Str
  /-- The error that the next read returns. -/
  readErr : GoError

/-- The network: what the dial number `n` (counted from 0 over the whole pass)
to an address gives, an error or a connection. -/
abbrev Net := Nat → Str → Except GoError Conn

/-- What a pass has done so far, as seen from outside. -/
structure Trace where
  /-- The addresses dialled, in order. -/
  dialled : List Str
  /-- The commands passed to the write, with the address written to. -/
  sent : List (Str × Str)
  /-- The connections closed. -/
  closed : List Str
  /-- The calls of `AddFields`. -/
  records : List Record
  deriving DecidableEq

/-- The plugin configuration. -/
structure Powerdns where
  /-- The configured socket paths. -/
  UnixSockets : List Str

/-- The `for` loop of `gatherServer` that reads into `buf`: data is appended
until a read returns an error; `io.EOF` leaves the loop, any other error is
returned. -/
def readLoop (buf : Str) : List Str → GoError → Except GoError Str
  | [], err => if err ≠ GoError.EOF then Except.error err else Except.ok buf
  | tmp :: more, err => readLoop (buf ++ tmp) more err

/-- The method `gatherServer(address, acc)`. -/
def gatherServer (net : Net) (address : Str) (tr : Trace) :
    Outcome (Option GoError) × Trace :=
  let tr1 := { tr with dialled := tr.dialled ++ [address] }
  match net tr.dialled.length address with
  | Except.error err => (Outcome.ret (some err), tr1)
  | Except.ok conn =>
    let tr2 := { tr1 with sent := tr1.sent ++ [(address, "show * \n".toList)],
                          closed := tr1.closed ++ [address] }
    if conn.writeErr ≠ none then (Outcome.ret none, tr2)
    else
      match conn.flushErr with
      | some err => (Outcome.ret (some err), tr2)
      | none =>
        match readLoop [] conn.chunks conn.readErr with
        | Except.error err => (Outcome.ret (some err), tr2)
        | Except.ok metrics =>
          match parseResponse metrics with
          | Outcome.panic => (Outcome.panic, tr2)
          | Outcome.ret (_, some err) => (Outcome.ret (some err), tr2)
          | Outcome.ret (fields, none) =>
            (Outcome.ret none,
              { tr2 with records := tr2.records ++
                  [Record.mk "powerdns".toList fields [("server".toList, address)]] })

/-- The path used when no socket is configured. -/
def defaultSocket : Str := "/var/run/pdns.controlsocket".toList

/-- The `for _, serverSocket := range p.UnixSockets` loop of `Gather`. -/
def gatherRange (net : Net) : List Str → Trace → Outcome (Option GoError) × Trace
  | [], tr => (Outcome.ret none, tr)
  | serverSocket :: more, tr =>
    match gatherServer net serverSocket tr with
    | (Outcome.ret none, tr1) => gatherRange net more tr1
    | (Outcome.ret (some err), tr1) => (Outcome.ret (some err), tr1)
    | (Outcome.panic, tr1) => (Outcome.panic, tr1)

/-- The method `Gather(acc)`. -/
def Gather (net : Net) (p : Powerdns) (tr : Trace) : Outcome (Option GoError) × Trace :=
  if p.UnixSockets.length = 0 then gatherServer net defaultSocket tr
  else gatherRange net p.UnixSockets tr

/-! ## Notions used to state the claims on the gather pass -/

/-- The trace before any pass. -/
def Trace.empty : Trace := Trace.mk [] [] [] []

/-- The trace after `gatherServer` has been run on each of the targets in turn
and has returned no error each time; `none` if one of the runs returns an
error or panics. -/
def afterSuccesses (net : Net) : List Str → Trace → Option Trace
  | [], tr => some tr
  | a :: more, tr =>
    match gatherServer net a tr with
    | (Outcome.ret none, tr1) => afterSuccesses net more tr1
    | _ => none

/-- The record that `gatherServer` emits for an address. -/
def recordFor (address : Str) (fields : FieldSet) : Record :=
  Record.mk "powerdns".toList fields [("server".toList, address)]

/-- The network of the two-target scenario: the first dial reaches a server
that answers `questions=42,answers=41,` and a newline, every later dial
fails. -/
def firstOnlyNet : Net := fun n _ =>
  if n = 0 then
    Except.ok (Conn.mk none none ["questions=42,".toList, "answers=41,\n".toList] GoError.EOF)
  else Except.error (GoError.netErr 111)

/-- A network on which every dial succeeds and every write of the command
fails. -/
def writeFailsNet : Net := fun _ _ =>
  Except.ok (Conn.mk (some (GoError.netErr 32)) none [] GoError.EOF)

/-- The network whose every dial reaches a server that answers `a=1,b=bad,`
and closes the stream. -/
def badValueNet : Net := fun _ _ =>
  Except.ok (Conn.mk none none ["a=1,b=".toList, "bad,".toList] GoError.EOF)

/-! ## Lemmas -/

theorem isDigit_lt {c : Char} (h : isDigit c = true) : c.toNat - 48 < 10 := by
  simp only [isDigit, decide_eq_true_eq] at h
  omega

theorem digitsFrom_ge (ds : Str) (n : Nat) : n ≤ digitsFrom n ds := by
  induction ds generalizing n with
  | nil => simp [digitsFrom]
  | cons c cs ih =>
    have h := ih (10 * n + (c.toNat - 48))
    simp only [digitsFrom, List.foldl_cons] at h ⊢
    omega

theorem parseUintLoop_digits (ds : Str) (n : Nat) (hn : n < 2 ^ 64)
    (hd : ds.all isDigit = true) :
    parseUintLoop n ds =
      if digitsFrom n ds < 2 ^ 64 then (digitsFrom n ds, none)
      else (maxUint64, some GoError.ErrRange) := by
  induction ds generalizing n with
  | nil => simp only [parseUintLoop, digitsFrom, List.foldl_nil, if_pos hn]
  | cons c cs ih =>
    simp only [List.all_cons, Bool.and_eq_true] at hd
    obtain ⟨hc, hcs⟩ := hd
    have hlt := isDigit_lt hc
    have hge := digitsFrom_ge cs (10 * n + (c.toNat - 48))
    have hstep : digitsFrom n (c :: cs) = digitsFrom (10 * n + (c.toNat - 48)) cs := rfl
    rw [hstep]
    simp only [parseUintLoop, hc, if_true]
    by_cases h1 : n ≥ maxUint64 / 10 + 1
    · have h1' : n ≥ 1844674407370955162 := by
        simpa [maxUint64] using h1
      rw [if_pos h1, if_neg (by omega)]
    · have h1' : n < 1844674407370955162 := by
        simpa [maxUint64] using h1
      rw [if_neg h1]
      have e10 : n * 10 % 2 ^ 64 = n * 10 := Nat.mod_eq_of_lt (by omega)
      by_cases h2 : n * 10 + (c.toNat - 48) < 2 ^ 64
      · have e1 : (n * 10 % 2 ^ 64 + (c.toNat - 48)) % 2 ^ 64 = 10 * n + (c.toNat - 48) := by
          rw [e10, Nat.mod_eq_of_lt h2]; omega
        simp only [e1]
        rw [if_neg (by rw [e10]; simp only [maxUint64]; omega)]
        exact ih _ (by omega) hcs
      · have e1 : (n * 10 % 2 ^ 64 + (c.toNat - 48)) % 2 ^ 64
            = n * 10 + (c.toNat - 48) - 2 ^ 64 := by
          rw [e10]
          have : n * 10 + (c.toNat - 48) - 2 ^ 64 < 2 ^ 64 := by omega
          rw [← Nat.mod_eq_of_lt this]
          exact Nat.mod_eq_sub_mod (by omega)
        simp only [e1]
        rw [if_pos (by rw [e10]; left; omega), if_neg (by omega)]

theorem parseUintLoop_bad (ds : Str) (n : Nat) (hd : ds.all isDigit = false) :
    parseUintLoop n ds = (0, some GoError.ErrSyntax)
      ∨ parseUintLoop n ds = (maxUint64, some GoError.ErrRange) := by
  induction ds generalizing n with
  | nil => simp at hd
  | cons c cs ih =>
    simp only [parseUintLoop]
    by_cases hc : isDigit c = true
    · have hcs : cs.all isDigit = false := by
        simpa [List.all_cons, hc] using hd
      simp only [hc, if_true]
      split
      · exact Or.inr rfl
      · split
        · exact Or.inr rfl
        · exact ih _ hcs
    · simp [hc]

theorem ParseUint_digits (ds : Str) (hd : isDigits ds = true) :
    ParseUint ds =
      if digitsFrom 0 ds < 2 ^ 64 then (digitsFrom 0 ds, none)
      else (maxUint64, some GoError.ErrRange) := by
  simp only [isDigits, Bool.and_eq_true, decide_eq_true_eq] at hd
  rw [ParseUint, if_neg hd.1]
  exact parseUintLoop_digits ds 0 (by omega) hd.2

theorem ParseUint_bad (ds : Str) (hd : isDigits ds = false) :
    ParseUint ds = (0, some GoError.ErrSyntax)
      ∨ ParseUint ds = (maxUint64, some GoError.ErrRange) := by
  unfold ParseUint
  by_cases he : ds = []
  · simp [he]
  · rw [if_neg he]
    apply parseUintLoop_bad
    simpa [isDigits, he] using hd

theorem ParseInt_cons (c : Char) (cs : Str) :
    ParseInt (c :: cs) =
      signedCheck (decide (c = '-')) (ParseUint (if c = '+' ∨ c = '-' then cs else c :: cs)) := by
  rfl

theorem signedCheck_bad (neg : Bool) (r : Nat × Option GoError)
    (h : r = (0, some GoError.ErrSyntax) ∨ r = (maxUint64, some GoError.ErrRange)) :
    (signedCheck neg r).2 ≠ none := by
  rcases h with h | h
  · subst h; simp [signedCheck]
  · subst h
    cases neg <;> simp [signedCheck, maxUint64]

theorem signedCheck_digits (neg : Bool) (ds : Str) (hd : isDigits ds = true) :
    (inInt64 (if neg then -(digitsFrom 0 ds : Int) else (digitsFrom 0 ds : Int)) →
      signedCheck neg (ParseUint ds)
        = (if neg then -(digitsFrom 0 ds : Int) else (digitsFrom 0 ds : Int), none))
    ∧ (¬ inInt64 (if neg then -(digitsFrom 0 ds : Int) else (digitsFrom 0 ds : Int)) →
      (signedCheck neg (ParseUint ds)).2 = some GoError.ErrRange) := by
  rw [ParseUint_digits ds hd]
  generalize digitsFrom 0 ds = V
  unfold inInt64
  by_cases hV : V < 2 ^ 64
  · rw [if_pos hV]
    cases neg
    · simp only [signedCheck, Bool.false_eq_true, if_false, ne_eq, not_true_eq_false,
        false_and, not_false_eq_true, true_and]
      by_cases h63 : V ≥ 2 ^ 63
      · rw [if_pos h63]
        constructor
        · intro h; omega
        · intro _; rfl
      · rw [if_neg h63]
        constructor
        · intro _; rfl
        · intro h; omega
    · simp only [signedCheck, if_true, ne_eq, not_true_eq_false, false_and,
        not_false_eq_true, true_and, if_false]
      by_cases h63 : V > 2 ^ 63
      · rw [if_pos h63]
        constructor
        · intro h; omega
        · intro _; rfl
      · rw [if_neg h63]
        constructor
        · intro _; rfl
        · intro h; omega
  · rw [if_neg hV]
    cases neg
    · constructor
      · intro h; simp only [Bool.false_eq_true, if_false] at h; omega
      · intro _; simp [signedCheck, maxUint64]
    · constructor
      · intro h; simp only [if_true] at h; omega
      · intro _; simp [signedCheck, maxUint64]

theorem ParseInt_literal (s : Str) (v : Int) (h : literalValue s = some v) :
    (inInt64 v → ParseInt s = (v, none))
      ∧ (¬ inInt64 v → (ParseInt s).2 = some GoError.ErrRange) := by
  cases s with
  | nil => simp [literalValue] at h
  | cons c cs =>
    rw [ParseInt_cons]
    simp only [literalValue] at h
    by_cases hm : c = '-'
    · subst hm
      simp only [if_true] at h
      by_cases hd : isDigits cs = true
      · simp only [hd, if_true, Option.some.injEq] at h
        subst h
        simpa using signedCheck_digits true cs hd
      · simp [hd] at h
    · by_cases hp : c = '+'
      · subst hp
        simp only [show ¬ ('+' = '-') by decide, if_false, if_true] at h
        by_cases hd : isDigits cs = true
        · simp only [hd, if_true, Option.some.injEq] at h
          subst h
          simpa using signedCheck_digits false cs hd
        · simp [hd] at h
      · simp only [hm, hp, if_false] at h
        by_cases hd : isDigits (c :: cs) = true
        · simp only [hd, if_true, Option.some.injEq] at h
          subst h
          simpa [hm, hp] using signedCheck_digits false (c :: cs) hd
        · simp [hd] at h

theorem ParseInt_not_literal (s : Str) (h : literalValue s = none) :
    (ParseInt s).2 ≠ none := by
  cases s with
  | nil => simp [ParseInt]
  | cons c cs =>
    rw [ParseInt_cons]
    apply signedCheck_bad
    simp only [literalValue] at h
    by_cases hm : c = '-'
    · subst hm
      by_cases hd : isDigits cs = true
      · simp [hd] at h
      · simpa using ParseUint_bad cs (by simpa using hd)
    · by_cases hp : c = '+'
      · subst hp
        by_cases hd : isDigits cs = true
        · simp [hd] at h
        · simpa using ParseUint_bad cs (by simpa using hd)
      · by_cases hd : isDigits (c :: cs) = true
        · simp [hm, hp, hd] at h
        · simpa [hm, hp] using ParseUint_bad (c :: cs) (by simpa using hd)

/-- The function `ParseInt` accepts a text exactly when it is a base-10 literal whose value
fits in 64 signed bits, and then returns that value. -/
theorem ParseInt_ok_iff (s : Str) (v : Int) :
    ParseInt s = (v, none) ↔ (literalValue s = some v ∧ inInt64 v) := by
  constructor
  · intro h
    cases hl : literalValue s with
    | none =>
      exact absurd (by rw [h]) (ParseInt_not_literal s hl)
    | some w =>
      have hw := ParseInt_literal s w hl
      by_cases hin : inInt64 w
      · have := hw.1 hin
        rw [h] at this
        simp only [Prod.mk.injEq, and_true] at this
        subst this
        exact ⟨rfl, hin⟩
      · have := hw.2 hin
        rw [h] at this
        simp at this
  · rintro ⟨hl, hin⟩
    exact (ParseInt_literal s v hl).1 hin

theorem Split_ne_nil (s : Str) (sep : Char) : Split s sep ≠ [] := by
  induction s with
  | nil => simp [Split]
  | cons c cs ih =>
    simp only [Split]
    split
    · simp
    · split <;> simp

theorem Split_of_not_mem (a : Str) (sep : Char) (h : sep ∉ a) : Split a sep = [a] := by
  induction a with
  | nil => rfl
  | cons c cs ih =>
    simp only [List.mem_cons, not_or] at h
    have hc : ¬ c = sep := fun e => h.1 e.symm
    simp only [Split, if_neg hc, ih h.2]

theorem Split_append_sep (a b : Str) (sep : Char) (h : sep ∉ a) :
    Split (a ++ sep :: b) sep = a :: Split b sep := by
  induction a with
  | nil => simp [Split]
  | cons c cs ih =>
    simp only [List.mem_cons, not_or] at h
    have hc : ¬ c = sep := fun e => h.1 e.symm
    have e : (c :: cs) ++ sep :: b = c :: (cs ++ sep :: b) := rfl
    rw [e]
    simp only [Split, if_neg hc, ih h.2]

theorem Split_head (v : Str) (sep : Char) :
    (Split v sep).head? = some (v.takeWhile (fun c => decide (c ≠ sep))) := by
  induction v with
  | nil => rfl
  | cons c cs ih =>
    by_cases hc : c = sep
    · simp [Split, hc]
    · simp only [Split, if_neg hc]
      cases hs : Split cs sep with
      | nil => exact absurd hs (Split_ne_nil cs sep)
      | cons piece pieces =>
        rw [hs] at ih
        simp only [List.head?_cons, Option.some.injEq] at ih
        simp [List.takeWhile_cons, hc, ih]

theorem isDigits_mem {ds : Str} (h : isDigits ds = true) {c : Char} (hc : c ∈ ds) :
    isDigit c = true := by
  simp only [isDigits, Bool.and_eq_true, List.all_eq_true] at h
  exact h.2 c hc

theorem literal_no_sep {w : Str} {v : Int} (h : literalValue w = some v) {c : Char}
    (hc : c = ',' ∨ c = '=') : c ∉ w := by
  have hnd : isDigit c = false := by rcases hc with e | e <;> subst e <;> decide
  have hnm : c ≠ '-' := by rcases hc with e | e <;> subst e <;> decide
  have hnp : c ≠ '+' := by rcases hc with e | e <;> subst e <;> decide
  have key : ∀ ds : Str, isDigits ds = true → c ∉ ds := by
    intro ds hds hmem
    rw [isDigits_mem hds hmem] at hnd
    exact Bool.noConfusion hnd
  cases w with
  | nil => simp [literalValue] at h
  | cons a as =>
    simp only [literalValue] at h
    by_cases hm : a = '-'
    · subst hm
      by_cases hd : isDigits as = true
      · intro hmem
        rcases List.mem_cons.1 hmem with e | e
        · exact hnm e
        · exact key as hd e
      · simp [hd] at h
    · by_cases hp : a = '+'
      · subst hp
        by_cases hd : isDigits as = true
        · intro hmem
          rcases List.mem_cons.1 hmem with e | e
          · exact hnp e
          · exact key as hd e
        · simp [hd] at h
      · by_cases hd : isDigits (a :: as) = true
        · exact key _ hd
        · simp [hm, hp, hd] at h

theorem takeWhile_no_sep (w : Str) (sep : Char) (h : sep ∉ w) :
    w.takeWhile (fun c => decide (c ≠ sep)) = w := by
  rw [List.takeWhile_eq_self_iff]
  intro c hc
  simp only [ne_eq, decide_not, Bool.not_eq_eq_eq_not, Bool.not_true, decide_eq_false_iff_not]
  intro e
  exact h (e ▸ hc)

/-- One turn of the loop on a segment `k=w` whose key has no `=`: the number
parsed is the text of `w` up to its first `=`. -/
theorem parseLoop_segment (values : FieldSet) (k w : Str) (rest : List Str)
    (hk : '=' ∉ k) :
    parseLoop values (segment k w :: rest) =
      match ParseInt (w.takeWhile (fun c => decide (c ≠ '='))) with
      | (_, some err) => Outcome.ret (values, some err)
      | (i, none) => parseLoop (values.set k i) rest := by
  have hs : Split (segment k w) '=' = k :: Split w '=' := Split_append_sep k w '=' hk
  have hh := Split_head w '='
  cases hw : Split w '=' with
  | nil => exact absurd hw (Split_ne_nil w '=')
  | cons piece pieces =>
    rw [hw] at hh
    simp only [List.head?_cons, Option.some.injEq] at hh
    simp only [parseLoop, hs, hw, List.get?_cons_succ, List.get?_cons_zero, List.headD_cons, hh]

/-- One turn of the loop on a segment without `=`: index out of range. -/
theorem parseLoop_no_eq (values : FieldSet) (metric : Str) (rest : List Str)
    (h : '=' ∉ metric) : parseLoop values (metric :: rest) = Outcome.panic := by
  simp [parseLoop, Split_of_not_mem metric '=' h]

theorem wellFormed_accepted {e : Entry} (h : e.wellFormed) : e.accepted := by
  obtain ⟨hc, hk, hl, hin⟩ := h
  refine ⟨hc, hk, literal_no_sep hl (Or.inl rfl), ?_, hin⟩
  rw [takeWhile_no_sep _ _ (literal_no_sep hl (Or.inr rfl))]
  exact hl

theorem parseLoop_entries (es : List Entry) (values : FieldSet) (rest : List Str)
    (hacc : ∀ e ∈ es, e.accepted) :
    parseLoop values (es.map (fun e => segment e.key e.text) ++ rest)
      = parseLoop (assignAll values es) rest := by
  induction es generalizing values with
  | nil => rfl
  | cons e es ih =>
    obtain ⟨_, hk, _, hl, hin⟩ := hacc e (List.mem_cons_self _ _)
    have hp : ParseInt (e.text.takeWhile (fun c => decide (c ≠ '='))) = (e.value, none) :=
      (ParseInt_literal _ _ hl).1 hin
    simp only [List.map_cons, List.cons_append]
    rw [parseLoop_segment values e.key e.text _ hk, hp]
    exact ih _ (fun x hx => hacc x (List.mem_cons_of_mem _ hx))

theorem Split_render (es : List Entry) (t : Str) (hacc : ∀ e ∈ es, e.accepted) :
    Split (render es ++ t) ',' = es.map (fun e => segment e.key e.text) ++ Split t ',' := by
  induction es with
  | nil => rfl
  | cons e es ih =>
    obtain ⟨hk, _, ht, _, _⟩ := hacc e (List.mem_cons_self _ _)
    have hseg : ',' ∉ segment e.key e.text := by
      simp only [segment, List.mem_append, List.mem_cons, not_or]
      exact ⟨hk, by decide, ht⟩
    have e1 : render (e :: es) ++ t = segment e.key e.text ++ ',' :: (render es ++ t) := by
      simp [render]
    rw [e1, Split_append_sep _ _ _ hseg, ih (fun x hx => hacc x (List.mem_cons_of_mem _ hx))]
    rfl

theorem take_pred_append (A B : List Str) (hB : B ≠ []) :
    (A ++ B).take ((A ++ B).length - 1) = A ++ B.take (B.length - 1) := by
  have hl : 0 < B.length := List.length_pos.2 hB
  rw [List.take_append_eq_append_take, List.length_append]
  have e1 : A.length + B.length - 1 - A.length = B.length - 1 := by omega
  rw [e1, List.take_of_length_le (by omega)]

theorem set_of_not_mem (m : FieldSet) (k : Str) (v : Int) (h : k ∉ m.map Prod.fst) :
    m.set k v = m ++ [(k, v)] := by
  induction m with
  | nil => rfl
  | cons p rest ih =>
    obtain ⟨k', v'⟩ := p
    simp only [List.map_cons, List.mem_cons, not_or] at h
    have hne : ¬ k' = k := fun e => h.1 e.symm
    simp only [FieldSet.set, if_neg hne, ih h.2, List.cons_append]

theorem assignAll_distinct (es : List Entry) (values : FieldSet)
    (hnd : (es.map Entry.key).Nodup) (hnew : ∀ e ∈ es, e.key ∉ values.map Prod.fst) :
    assignAll values es = values ++ fieldsOf es := by
  induction es generalizing values with
  | nil => simp [assignAll, fieldsOf]
  | cons e es ih =>
    simp only [List.map_cons, List.nodup_cons] at hnd
    have h1 := set_of_not_mem values e.key e.value (hnew e (List.mem_cons_self _ _))
    have hstep : assignAll values (e :: es) = assignAll (values.set e.key e.value) es := rfl
    rw [hstep, h1, ih _ hnd.2]
    · simp [fieldsOf]
    · intro x hx hmem
      simp only [List.map_append, List.map_cons, List.map_nil, List.mem_append,
        List.mem_singleton] at hmem
      rcases hmem with hmem | hmem
      · exact hnew x (List.mem_cons_of_mem _ hx) hmem
      · exact hnd.1 (hmem ▸ List.mem_map_of_mem Entry.key hx)

theorem get_fieldsOf (es : List Entry) (hnd : (es.map Entry.key).Nodup) :
    ∀ e ∈ es, (fieldsOf es).get e.key = some e.value := by
  induction es with
  | nil => intro e he; cases he
  | cons a as ih =>
    simp only [List.map_cons, List.nodup_cons] at hnd
    intro e he
    rcases List.mem_cons.1 he with h | h
    · subst h; simp [fieldsOf, FieldSet.get]
    · have hne : ¬ a.key = e.key := fun heq =>
        hnd.1 (heq ▸ List.mem_map_of_mem Entry.key h)
      have := ih hnd.2 e h
      simpa [fieldsOf, FieldSet.get, hne] using this

/-- The response `...,k=v,` cut at its commas, without the last piece. -/
theorem segments_render (es : List Entry) (t : Str) (hacc : ∀ e ∈ es, e.accepted) :
    (Split (render es ++ t) ',').take ((Split (render es ++ t) ',').length - 1)
      = es.map (fun e => segment e.key e.text)
          ++ (Split t ',').take ((Split t ',').length - 1) := by
  rw [Split_render es t hacc]
  exact take_pred_append _ _ (Split_ne_nil t ',')

theorem parseResponse_render (es : List Entry) (t : Str) (hacc : ∀ e ∈ es, e.accepted) :
    parseResponse (render es ++ t)
      = parseLoop (assignAll [] es) ((Split t ',').take ((Split t ',').length - 1)) := by
  unfold parseResponse
  simp only []
  rw [segments_render es t hacc, parseLoop_entries es [] _ hacc]

theorem parseResponse_single (k v : Str) (hk : ',' ∉ k) (hv : ',' ∉ v) :
    parseResponse (segment k v ++ [',']) = parseLoop [] [segment k v] := by
  have hseg : ',' ∉ segment k v := by
    simp only [segment, List.mem_append, List.mem_cons, not_or]
    exact ⟨hk, by decide, hv⟩
  unfold parseResponse
  simp only []
  rw [Split_append_sep _ _ _ hseg]
  rfl

theorem readLoop_eof (chunks : List Str) (buf : Str) :
    readLoop buf chunks GoError.EOF = Except.ok (buf ++ chunks.flatten) := by
  induction chunks generalizing buf with
  | nil => simp [readLoop]
  | cons c cs ih => simp [readLoop, ih]

/-- Every run of `gatherServer` dials its address once; it adds either no
record or, when it returns no error, at most the one record of its address. -/
theorem gatherServer_trace (net : Net) (a : Str) (tr : Trace) :
    (gatherServer net a tr).2.dialled = tr.dialled ++ [a]
      ∧ ((gatherServer net a tr).2.records = tr.records
          ∨ ((gatherServer net a tr).1 = Outcome.ret none
              ∧ ∃ F, (gatherServer net a tr).2.records = tr.records ++ [recordFor a F])) := by
  unfold gatherServer
  simp only []
  split
  · exact ⟨rfl, Or.inl rfl⟩
  · split
    · exact ⟨rfl, Or.inl rfl⟩
    · split
      · exact ⟨rfl, Or.inl rfl⟩
      · split
        · exact ⟨rfl, Or.inl rfl⟩
        · split
          · exact ⟨rfl, Or.inl rfl⟩
          · exact ⟨rfl, Or.inl rfl⟩
          · exact ⟨rfl, Or.inr ⟨rfl, _, rfl⟩⟩

theorem gatherServer_error_records (net : Net) (a : Str) (tr tr2 : Trace) (e : GoError)
    (h : gatherServer net a tr = (Outcome.ret (some e), tr2)) :
    tr2.dialled = tr.dialled ++ [a] ∧ tr2.records = tr.records := by
  have ht := gatherServer_trace net a tr
  rw [h] at ht
  refine ⟨ht.1, ?_⟩
  rcases ht.2 with h1 | ⟨h1, _⟩
  · exact h1
  · simp at h1

theorem afterSuccesses_spec (net : Net) (pre : List Str) (tr tr1 : Trace)
    (h : afterSuccesses net pre tr = some tr1) :
    (∀ rest, gatherRange net (pre ++ rest) tr = gatherRange net rest tr1)
      ∧ tr1.dialled = tr.dialled ++ pre
      ∧ ∃ new, tr1.records = tr.records ++ new ∧ new.length ≤ pre.length
          ∧ ∀ r ∈ new, ∃ b ∈ pre, ∃ F, r = recordFor b F := by
  induction pre generalizing tr with
  | nil =>
    simp only [afterSuccesses, Option.some.injEq] at h
    subst h
    exact ⟨fun _ => rfl, by simp, [], by simp, by simp, by simp⟩
  | cons a more ih =>
    have ht := gatherServer_trace net a tr
    simp only [afterSuccesses] at h
    cases hg : gatherServer net a tr with
    | mk o trm =>
      rw [hg] at h ht
      cases o with
      | panic => simp at h
      | ret oe =>
        cases oe with
        | some e => simp at h
        | none =>
          simp only at h ht
          obtain ⟨hrange, hdial, new, hrec, hlen, hnew⟩ := ih trm h
          refine ⟨?_, ?_, ?_⟩
          · intro rest
            simp only [List.cons_append, gatherRange, hg]
            exact hrange rest
          · rw [hdial, ht.1]; simp
          · rcases ht.2 with h1 | ⟨_, F, h1⟩
            · refine ⟨new, by rw [hrec, h1], by simp; omega, ?_⟩
              intro r hr
              obtain ⟨b, hb, hF⟩ := hnew r hr
              exact ⟨b, List.mem_cons_of_mem _ hb, hF⟩
            · refine ⟨recordFor a F :: new, by rw [hrec, h1]; simp, by simp; omega, ?_⟩
              intro r hr
              rcases List.mem_cons.1 hr with e | e
              · exact ⟨a, List.mem_cons_self _ _, F, e⟩
              · obtain ⟨b, hb, hF⟩ := hnew r e
                exact ⟨b, List.mem_cons_of_mem _ hb, hF⟩

/-- The response cut at the commas around a segment that follows accepted
ones: the loop reaches the segment with the map assigned so far. -/
theorem parseResponse_at_segment (es : List Entry) (k v rest : Str)
    (hacc : ∀ e ∈ es, e.accepted) (hk : ',' ∉ k) (hv : ',' ∉ v) :
    parseResponse (render es ++ (segment k v ++ ',' :: rest))
      = parseLoop (assignAll [] es)
          (segment k v :: (Split rest ',').take ((Split rest ',').length - 1)) := by
  have hseg : ',' ∉ segment k v := by
    simp only [segment, List.mem_append, List.mem_cons, not_or]
    exact ⟨hk, by decide, hv⟩
  have htake := take_pred_append [segment k v] _ (Split_ne_nil rest ',')
  simp only [List.singleton_append] at htake
  rw [parseResponse_render es _ hacc, Split_append_sep _ _ _ hseg, htake]

/-- A run of `gatherServer` whose exchange succeeds and whose response parses:
one record is added and no error returned. -/
theorem gatherServer_success (net : Net) (a : Str) (tr : Trace) (conn : Conn) (F : FieldSet)
    (hdial : net tr.dialled.length a = Except.ok conn)
    (hwrite : conn.writeErr = none) (hflush : conn.flushErr = none)
    (heof : conn.readErr = GoError.EOF)
    (hparse : parseResponse conn.chunks.flatten = Outcome.ret (F, none)) :
    gatherServer net a tr
      = (Outcome.ret none,
          Trace.mk (tr.dialled ++ [a]) (tr.sent ++ [(a, "show * \n".toList)])
            (tr.closed ++ [a])
            (tr.records ++ [Record.mk "powerdns".toList F [("server".toList, a)]])) := by
  have hread : readLoop [] conn.chunks conn.readErr = Except.ok conn.chunks.flatten := by
    rw [heof, readLoop_eof]; rfl
  simp only [gatherServer, hdial, hwrite, hflush, hread, hparse, ne_eq, not_true_eq_false,
    if_false]

/-- A run of `gatherServer` whose exchange succeeds and whose response fails to
parse: the parse error is returned and no record is added, whatever map came
back with the error. -/
theorem gatherServer_parse_error (net : Net) (a : Str) (tr : Trace) (conn : Conn)
    (F : FieldSet) (err : GoError)
    (hdial : net tr.dialled.length a = Except.ok conn)
    (hwrite : conn.writeErr = none) (hflush : conn.flushErr = none)
    (heof : conn.readErr = GoError.EOF)
    (hparse : parseResponse conn.chunks.flatten = Outcome.ret (F, some err)) :
    gatherServer net a tr
      = (Outcome.ret (some err),
          Trace.mk (tr.dialled ++ [a]) (tr.sent ++ [(a, "show * \n".toList)])
            (tr.closed ++ [a]) tr.records) := by
  have hread : readLoop [] conn.chunks conn.readErr = Except.ok conn.chunks.flatten := by
    rw [heof, readLoop_eof]; rfl
  simp only [gatherServer, hdial, hwrite, hflush, hread, hparse, ne_eq, not_true_eq_false,
    if_false]

/-- A run of `gatherServer` whose dial fails: the dial error is returned and
nothing else happens. -/
theorem gatherServer_dial_error (net : Net) (a : Str) (tr : Trace) (e : GoError)
    (hdial : net tr.dialled.length a = Except.error e) :
    gatherServer net a tr
      = (Outcome.ret (some e), Trace.mk (tr.dialled ++ [a]) tr.sent tr.closed tr.records) := by
  simp only [gatherServer, hdial]

/-- The empty response parses to the empty field set with no error. -/
theorem parseResponse_empty : parseResponse [] = Outcome.ret ([], none) := by
  decide

/-! ## Claims -/

/-- C1: for pairwise-distinct keys without `,` and `=`, values in the signed
64-bit range written in base 10, and a trailer without `,`, parsing
`k1=v1,...,kn=vn,` followed by the trailer returns no error and the field set
with exactly the `n` entries `ki ↦ vi`. -/
theorem parseResponse_wellformed (es : List Entry) (t : Str)
    (hwf : ∀ e ∈ es, e.wellFormed) (hdistinct : (es.map Entry.key).Nodup)
    (ht : ',' ∉ t) :
    parseResponse (render es ++ t) = Outcome.ret (fieldsOf es, none)
      ∧ (fieldsOf es).length = es.length
      ∧ ∀ e ∈ es, (fieldsOf es).get e.key = some e.value := by
  refine ⟨?_, by simp [fieldsOf], get_fieldsOf es hdistinct⟩
  rw [parseResponse_render es t (fun e he => wellFormed_accepted (hwf e he)),
    Split_of_not_mem t ',' ht,
    assignAll_distinct es [] hdistinct (fun _ _ h => by simp at h)]
  rfl

/-- Witness for C1: the response `questions=42,answers=41,` followed by a
newline. -/
theorem parseResponse_wellformed_witness :
    parseResponse "questions=42,answers=41,\n".toList
      = Outcome.ret ([("questions".toList, 42), ("answers".toList, 41)], none) :=
  (parseResponse_wellformed
    [Entry.mk "questions".toList "42".toList 42, Entry.mk "answers".toList "41".toList 41]
    "\n".toList
    (by
      intro e he
      simp only [List.mem_cons, List.mem_singleton, List.not_mem_nil, or_false] at he
      rcases he with h | h <;> subst h <;> simp only [Entry.wellFormed] <;> decide)
    (by decide) (by decide)).1

/-- C5, counterexample: on `a=1,b=bad,` the error comes back together with a
map that still holds `a ↦ 1`, the field decoded before the malformed segment. -/
theorem parseResponse_bad_value_keeps_fields :
    parseResponse "a=1,b=bad,".toList
      = Outcome.ret ([("a".toList, 1)], some GoError.ErrSyntax) := by
  decide

/-- C5, amended: when well-formed pairs are followed by a segment `k=v` whose
value (without `,` and `=`) is not a base-10 integer of the signed 64-bit
range, whatever follows, `parseResponse` returns an error, and the map returned
next to it holds exactly the fields assigned from the segments before the
malformed one; `gatherServer`, on receiving that response over an exchange that
succeeds, returns that same error and adds no record, so none of those fields
is emitted. -/
theorem parseResponse_bad_value (es : List Entry) (k v rest : Str)
    (hwf : ∀ e ∈ es, e.wellFormed)
    (hk : ',' ∉ k ∧ '=' ∉ k) (hv : ',' ∉ v ∧ '=' ∉ v)
    (hbad : ¬ ∃ i, literalValue v = some i ∧ inInt64 i) :
    ∃ err, parseResponse (render es ++ (segment k v ++ ',' :: rest))
        = Outcome.ret (assignAll [] es, some err)
      ∧ ∀ (net : Net) (a : Str) (tr : Trace) (conn : Conn),
          net tr.dialled.length a = Except.ok conn →
          conn.writeErr = none → conn.flushErr = none → conn.readErr = GoError.EOF →
          conn.chunks.flatten = render es ++ (segment k v ++ ',' :: rest) →
          gatherServer net a tr
            = (Outcome.ret (some err),
                Trace.mk (tr.dialled ++ [a]) (tr.sent ++ [(a, "show * \n".toList)])
                  (tr.closed ++ [a]) tr.records) := by
  have hparse : ∃ err, parseResponse (render es ++ (segment k v ++ ',' :: rest))
      = Outcome.ret (assignAll [] es, some err) := by
    rw [parseResponse_at_segment es k v rest (fun e he => wellFormed_accepted (hwf e he))
        hk.1 hv.1,
      parseLoop_segment _ _ _ _ hk.2, takeWhile_no_sep _ _ hv.2]
    cases hp : ParseInt v with
    | mk i err =>
      cases err with
      | none => exact absurd ⟨i, (ParseInt_ok_iff v i).1 hp⟩ hbad
      | some e => exact ⟨e, rfl⟩
  obtain ⟨err, herr⟩ := hparse
  refine ⟨err, herr, ?_⟩
  intro net a tr conn hdial hwrite hflush heof htext
  exact gatherServer_parse_error net a tr conn _ err hdial hwrite hflush heof
    (by rw [htext]; exact herr)

/-- Witness for C5 amended: on `a=1,b=bad,` the parser returns a syntax error
next to the map holding `a ↦ 1`, and `gatherServer` returns the error with no
record. -/
theorem parseResponse_bad_value_witness :
    ∃ err, parseResponse "a=1,b=bad,".toList = Outcome.ret ([("a".toList, 1)], some err)
      ∧ gatherServer badValueNet "/s".toList Trace.empty
          = (Outcome.ret (some err),
              Trace.mk ["/s".toList] [("/s".toList, "show * \n".toList)] ["/s".toList] []) :=
  match parseResponse_bad_value [Entry.mk "a".toList "1".toList 1] "b".toList "bad".toList []
    (by
      intro e he
      simp only [List.mem_singleton] at he
      subst he
      simp only [Entry.wellFormed]
      decide)
    (by decide) (by decide)
    (by
      rintro ⟨i, hi, _⟩
      have : literalValue "bad".toList = none := by decide
      rw [this] at hi
      cases hi) with
  | ⟨err, hp, hg⟩ =>
    ⟨err, hp, hg badValueNet "/s".toList Trace.empty
      (Conn.mk none none ["a=1,b=".toList, "bad,".toList] GoError.EOF)
      (by rfl) (by rfl) (by rfl) (by rfl) (by decide)⟩

/-- C6: on a response with a segment that has no `=` the parser does not
return at all (index out of range), so no error value reaches the caller;
shown on `abc,` and on `a=1,b,`. -/
theorem parseResponse_missing_eq_panics :
    parseResponse "abc,".toList = Outcome.panic
      ∧ parseResponse "a=1,b,".toList = Outcome.panic := by
  decide

/-- C7: the payload `,` has one non-trailing segment, the empty one, which has
no `=`; the parser does not return an empty field set, it does not return at
all (index out of range). -/
theorem parseResponse_lone_comma : parseResponse ",".toList = Outcome.panic := by
  decide

/-- C8, counterexample: the text after the first `=` of `a=1=2` is `1=2`, which
is not an integer, yet the segment is accepted and stores `a ↦ 1`. -/
theorem parseResponse_second_eq_accepted :
    literalValue "1=2".toList = none
      ∧ parseResponse "a=1=2,".toList = Outcome.ret ([("a".toList, 1)], none) := by
  decide

/-- C8, amended: take any response in which accepted segments are followed by
a segment `k=v`, with `k` free of `,` and `=` and `v` free of `,`, then a comma
and any further text.  The field name is the text before the first `=` and the
number is the text between the first `=` and the next `=` (or the end of the
segment).  When that text is a base-10 integer `i` of the signed 64-bit range
the segment is accepted: `k` is assigned `i` in the map built so far and the
loop goes on with the segments that follow (and returns that map with no error
when none follows).  Otherwise the parse stops there with an error and the map
built so far. -/
theorem parseResponse_segment (es : List Entry) (k v rest : Str)
    (hacc : ∀ e ∈ es, e.accepted) (hk : ',' ∉ k ∧ '=' ∉ k) (hv : ',' ∉ v) :
    (∀ i, literalValue (v.takeWhile (fun c => decide (c ≠ '='))) = some i ∧ inInt64 i →
        parseResponse (render es ++ (segment k v ++ ',' :: rest))
            = parseLoop ((assignAll [] es).set k i)
                ((Split rest ',').take ((Split rest ',').length - 1))
          ∧ (',' ∉ rest →
              parseResponse (render es ++ (segment k v ++ ',' :: rest))
                = Outcome.ret ((assignAll [] es).set k i, none)))
      ∧ ((¬ ∃ i, literalValue (v.takeWhile (fun c => decide (c ≠ '='))) = some i
            ∧ inInt64 i) →
          ∃ err, parseResponse (render es ++ (segment k v ++ ',' :: rest))
            = Outcome.ret (assignAll [] es, some err)) := by
  rw [parseResponse_at_segment es k v rest hacc hk.1 hv, parseLoop_segment _ _ _ _ hk.2]
  constructor
  · intro i hi
    rw [(ParseInt_ok_iff _ i).2 hi]
    refine ⟨rfl, ?_⟩
    intro hrest
    rw [Split_of_not_mem rest ',' hrest]
    rfl
  · intro hbad
    cases hp : ParseInt (v.takeWhile (fun c => decide (c ≠ '='))) with
    | mk i err =>
      cases err with
      | none => exact absurd ⟨i, (ParseInt_ok_iff _ i).1 hp⟩ hbad
      | some e => exact ⟨e, rfl⟩

/-- Witness for C8 amended: in `x=7=8,a=1=2,` followed by a newline, the second
segment comes after an accepted one and is itself accepted with `a ↦ 1`. -/
theorem parseResponse_segment_witness :
    parseResponse "x=7=8,a=1=2,\n".toList
      = Outcome.ret ([("x".toList, 7), ("a".toList, 1)], none) :=
  ((parseResponse_segment [Entry.mk "x".toList "7=8".toList 7] "a".toList "1=2".toList
    "\n".toList
    (by
      intro e he
      simp only [List.mem_singleton] at he
      subst he
      simp only [Entry.accepted]
      decide)
    (by decide) (by decide)).1 1 (by decide)).2 (by decide)

/-- C9: for a key without `,` and `=` and a base-10 literal of value `v`,
parsing `k=<literal>,` stores exactly `k ↦ v` when `v` is in the signed 64-bit
range, and fails with a range error, storing nothing, when it is not. -/
theorem parseResponse_range (k w : Str) (v : Int) (hk : ',' ∉ k ∧ '=' ∉ k)
    (hw : literalValue w = some v) :
    (inInt64 v → parseResponse (segment k w ++ [',']) = Outcome.ret ([(k, v)], none))
      ∧ (¬ inInt64 v →
          parseResponse (segment k w ++ [','])
            = Outcome.ret ([], some GoError.ErrRange)) := by
  rw [parseResponse_single k w hk.1 (literal_no_sep hw (Or.inl rfl)),
    parseLoop_segment _ _ _ _ hk.2, takeWhile_no_sep _ _ (literal_no_sep hw (Or.inr rfl))]
  constructor
  · intro hin
    rw [(ParseInt_literal w v hw).1 hin]
    rfl
  · intro hout
    have h2 := (ParseInt_literal w v hw).2 hout
    cases hp : ParseInt w with
    | mk i err =>
      rw [hp] at h2
      simp only at h2
      subst h2
      rfl

/-- Witness for C9: `a=99999999999999999999,` fails with a range error and
stores nothing. -/
theorem parseResponse_range_witness :
    parseResponse "a=99999999999999999999,".toList
      = Outcome.ret ([], some GoError.ErrRange) :=
  (parseResponse_range "a".toList "99999999999999999999".toList 99999999999999999999
    (by decide) (by decide)).2 (by decide)

/-- C2: when `gatherServer` returns no error for each target before position
`i` and the error `e` for the target at `i`, `Gather` returns exactly `e`; the
addresses dialled are the targets up to `i` and none after it; the records
added are records of targets before `i` only. -/
theorem Gather_first_error (net : Net) (pre post : List Str) (a : Str)
    (tr tr1 tr2 : Trace) (e : GoError)
    (hpre : afterSuccesses net pre tr = some tr1)
    (herr : gatherServer net a tr1 = (Outcome.ret (some e), tr2)) :
    Gather net (Powerdns.mk (pre ++ a :: post)) tr = (Outcome.ret (some e), tr2)
      ∧ tr2.dialled = tr.dialled ++ (pre ++ [a])
      ∧ ∃ new, tr2.records = tr.records ++ new ∧ new.length ≤ pre.length
          ∧ ∀ r ∈ new, ∃ b ∈ pre, ∃ F, r = recordFor b F := by
  obtain ⟨hrange, hdial, new, hrec, hlen, hnew⟩ := afterSuccesses_spec net pre tr tr1 hpre
  obtain ⟨hd2, hr2⟩ := gatherServer_error_records net a tr1 tr2 e herr
  refine ⟨?_, ?_, new, by rw [hr2, hrec], hlen, hnew⟩
  · have hlen0 : ¬ (pre ++ a :: post).length = 0 := by simp
    simp only [Gather, if_neg hlen0]
    rw [hrange (a :: post)]
    simp only [gatherRange, herr]
  · rw [hd2, hdial]; simp

/-- Witness for C2: three targets, the first succeeds, the second is
unreachable, the third is never dialled. -/
theorem Gather_first_error_witness :
    Gather firstOnlyNet (Powerdns.mk ["/a".toList, "/b".toList, "/c".toList]) Trace.empty
      = (Outcome.ret (some (GoError.netErr 111)),
          Trace.mk ["/a".toList, "/b".toList] [("/a".toList, "show * \n".toList)]
            ["/a".toList]
            [recordFor "/a".toList [("questions".toList, 42), ("answers".toList, 41)]]) :=
  (Gather_first_error firstOnlyNet ["/a".toList] ["/c".toList] "/b".toList Trace.empty
    (Trace.mk ["/a".toList] [("/a".toList, "show * \n".toList)] ["/a".toList]
      [recordFor "/a".toList [("questions".toList, 42), ("answers".toList, 41)]])
    _ (GoError.netErr 111) (by decide) (by decide)).1

/-- C3: on a connection whose write of the command fails, `Gather` returns no
error although no record has been emitted for the target. -/
theorem Gather_write_error_swallowed :
    Gather writeFailsNet (Powerdns.mk ["/run/pdns".toList]) Trace.empty
      = (Outcome.ret none,
          Trace.mk ["/run/pdns".toList] [("/run/pdns".toList, "show * \n".toList)]
            ["/run/pdns".toList] []) := by
  decide

/-- C4: when the dial succeeds, the command is written and flushed without
error, the reads deliver the response up to end of stream, and the response
parses to the field set `F`, `gatherServer` returns no error and makes exactly
one sink call: `AddFields` with the measurement `powerdns`, the fields `F` and
the single tag `server` set to the address as given. -/
theorem gatherServer_emits (net : Net) (a : Str) (tr : Trace) (conn : Conn) (F : FieldSet)
    (hdial : net tr.dialled.length a = Except.ok conn)
    (hwrite : conn.writeErr = none) (hflush : conn.flushErr = none)
    (heof : conn.readErr = GoError.EOF)
    (hparse : parseResponse conn.chunks.flatten = Outcome.ret (F, none)) :
    gatherServer net a tr
      = (Outcome.ret none,
          Trace.mk (tr.dialled ++ [a]) (tr.sent ++ [(a, "show * \n".toList)])
            (tr.closed ++ [a])
            (tr.records ++ [Record.mk "powerdns".toList F [("server".toList, a)]])) := by
  exact gatherServer_success net a tr conn F hdial hwrite hflush heof hparse

/-- Witness for C4: the mock server of the end-to-end scenario. -/
theorem gatherServer_emits_witness :
    gatherServer firstOnlyNet "/tmp/pdns.sock".toList Trace.empty
      = (Outcome.ret none,
          Trace.mk ["/tmp/pdns.sock".toList]
            [("/tmp/pdns.sock".toList, "show * \n".toList)] ["/tmp/pdns.sock".toList]
            [Record.mk "powerdns".toList [("questions".toList, 42), ("answers".toList, 41)]
              [("server".toList, "/tmp/pdns.sock".toList)]]) :=
  gatherServer_emits firstOnlyNet "/tmp/pdns.sock".toList Trace.empty
    (Conn.mk none none ["questions=42,".toList, "answers=41,\n".toList] GoError.EOF)
    [("questions".toList, 42), ("answers".toList, 41)]
    (by rfl) (by rfl) (by rfl) (by rfl) (by decide)

/-- C10: whatever the network does and whatever has been recorded before,
`Gather` with no configured socket gives the same result, error and trace, as
`Gather` with the single socket `/var/run/pdns.controlsocket`; both are one run
of `gatherServer` on that path, which is the one address dialled; when the
dial fails its error is returned and nothing is emitted, and when the exchange
succeeds and the response parses, the one record of that path is emitted. -/
theorem Gather_default (net : Net) (tr : Trace) :
    Gather net (Powerdns.mk []) tr
        = Gather net (Powerdns.mk ["/var/run/pdns.controlsocket".toList]) tr
      ∧ Gather net (Powerdns.mk []) tr
          = gatherServer net "/var/run/pdns.controlsocket".toList tr
      ∧ (Gather net (Powerdns.mk []) tr).2.dialled
          = tr.dialled ++ ["/var/run/pdns.controlsocket".toList]
      ∧ (∀ e, net tr.dialled.length "/var/run/pdns.controlsocket".toList = Except.error e →
          Gather net (Powerdns.mk []) tr
            = (Outcome.ret (some e),
                Trace.mk (tr.dialled ++ ["/var/run/pdns.controlsocket".toList])
                  tr.sent tr.closed tr.records))
      ∧ (∀ conn F,
          net tr.dialled.length "/var/run/pdns.controlsocket".toList = Except.ok conn →
          conn.writeErr = none → conn.flushErr = none → conn.readErr = GoError.EOF →
          parseResponse conn.chunks.flatten = Outcome.ret (F, none) →
          Gather net (Powerdns.mk []) tr
            = (Outcome.ret none,
                Trace.mk (tr.dialled ++ ["/var/run/pdns.controlsocket".toList])
                  (tr.sent ++ [("/var/run/pdns.controlsocket".toList, "show * \n".toList)])
                  (tr.closed ++ ["/var/run/pdns.controlsocket".toList])
                  (tr.records ++ [Record.mk "powerdns".toList F
                    [("server".toList, "/var/run/pdns.controlsocket".toList)]]))) := by
  have h1 : Gather net (Powerdns.mk []) tr
      = gatherServer net "/var/run/pdns.controlsocket".toList tr := rfl
  have h2 : Gather net (Powerdns.mk ["/var/run/pdns.controlsocket".toList]) tr
      = gatherRange net ["/var/run/pdns.controlsocket".toList] tr := rfl
  refine ⟨?_, h1, ?_, ?_, ?_⟩
  · rw [h1, h2]
    simp only [gatherRange]
    cases hg : gatherServer net "/var/run/pdns.controlsocket".toList tr with
    | mk o trm =>
      cases o with
      | panic => rfl
      | ret oe =>
        cases oe with
        | some e => rfl
        | none => rfl
  · rw [h1]
    exact (gatherServer_trace net _ tr).1
  · intro e hdial
    rw [h1]
    exact gatherServer_dial_error net _ tr e hdial
  · intro conn F hdial hwrite hflush heof hparse
    rw [h1]
    exact gatherServer_success net _ tr conn F hdial hwrite hflush heof hparse

/-- Witness for C10: with no socket configured and the mock server of the
end-to-end scenario behind every path, the default path is dialled and its one
record emitted. -/
theorem Gather_default_witness :
    Gather firstOnlyNet (Powerdns.mk []) Trace.empty
      = (Outcome.ret none,
          Trace.mk ["/var/run/pdns.controlsocket".toList]
            [("/var/run/pdns.controlsocket".toList, "show * \n".toList)]
            ["/var/run/pdns.controlsocket".toList]
            [Record.mk "powerdns".toList [("questions".toList, 42), ("answers".toList, 41)]
              [("server".toList, "/var/run/pdns.controlsocket".toList)]]) :=
  (Gather_default firstOnlyNet Trace.empty).2.2.2.2
    (Conn.mk none none ["questions=42,".toList, "answers=41,\n".toList] GoError.EOF)
    [("questions".toList, 42), ("answers".toList, 41)]
    (by rfl) (by rfl) (by rfl) (by rfl) (by decide)

end Telegraf
